import Mathlib

/-!
Verification of the temporal-filtering / file-specification core of the
pyfile_spec repository, shallowly embedded in Lean.

The embedding follows `src/file_spec/filespec.py` (FileSpecification, to_date,
Period, DateFilter), `src/file_spec/base_reader.py` and
`src/file_spec/fwf_file_reader.py` (the DateFilter-based loading pipeline),
and `src/file_spec/excel_file_reader.py` (ExceFileReader).

Python `datetime` values are modelled by the `Datetime` structure below;
Python's field-by-field lexicographic comparison of datetimes coincides, for
in-range field values, with comparison of the decimal key computed by
`dtKey`. Pandas dataframes are modelled as lists of rows, a row being an
association list from column name to a cell value.
-/

/-- Model of Python `datetime.datetime`: six calendar/time fields. -/
structure Datetime where
  year : Nat
  month : Nat
  day : Nat
  hour : Nat
  minute : Nat
  second : Nat
deriving DecidableEq, Repr

/-- Decimal packing of the six fields. For field values in their calendar
ranges (month, day, hour, minute, second all below 100) comparing keys is the
same as Python's lexicographic comparison of datetimes. -/
def dtKey (d : Datetime) : Nat :=
  ((((d.year * 100 + d.month) * 100 + d.day) * 100 + d.hour) * 100 + d.minute) * 100 + d.second

/-- Python `a <= b` on datetimes. -/
def dtLeB (a b : Datetime) : Bool := dtKey a ≤ dtKey b

/-- Python `a < b` on datetimes. -/
def dtLtB (a b : Datetime) : Bool := dtKey a < dtKey b

/-- Gregorian leap-year rule, as used by Python's `datetime` validation. -/
def isLeapYear (y : Nat) : Bool := (y % 4 == 0 && y % 100 != 0) || y % 400 == 0

/-- Number of days in a month, as used by Python's `datetime` validation. -/
def daysInMonth (y m : Nat) : Nat :=
  if m = 2 then (if isLeapYear y then 29 else 28)
  else if m = 4 ∨ m = 6 ∨ m = 9 ∨ m = 11 then 30
  else 31

/-- The Python `datetime(year, month, day, hour, minute, second)` constructor:
validates the ranges (MINYEAR = 1, MAXYEAR = 9999) and raises `ValueError`
(modelled as `Except.error`) on out-of-range values. -/
def mkDatetime (y mo d h mi s : Nat) : Except String Datetime :=
  if 1 ≤ y ∧ y ≤ 9999 ∧ 1 ≤ mo ∧ mo ≤ 12 ∧ 1 ≤ d ∧ d ≤ daysInMonth y mo
      ∧ h ≤ 23 ∧ mi ≤ 59 ∧ s ≤ 59 then
    Except.ok ⟨y, mo, d, h, mi, s⟩
  else
    Except.error "ValueError: invalid date"

/-- The argument type of `to_date`: `TDATE = str | int | datetime`, plus the
Python value `None` (`pynone`), which the function's docstring discusses and
callers may pass. -/
inductive PyDate where
  | dt (d : Datetime)
  | str (s : String)
  | int (n : Int)
  | pynone
deriving DecidableEq, Repr

/-- The two strftime/strptime formats appearing in `to_date`:
`"%Y%m%d"` and `"%Y%m%d%H%M%S"`. -/
inductive DateFmt where
  | ymd
  | ymdhms
deriving DecidableEq, Repr

/-- Numeric value of a list of decimal digit characters, or `none` if some
character is not a digit. -/
def digitsToNat : List Char → Option Nat
  | [] => some 0
  | c :: rest =>
    if c.isDigit then
      (digitsToNat rest).map (fun n => (c.toNat - 48) * 10 ^ rest.length + n)
    else none

/-- `datetime.strptime(s, fmt)` restricted to the two formats used by
`to_date`, modelled for the fully padded digit forms (8 digits for `"%Y%m%d"`,
14 for `"%Y%m%d%H%M%S"`); any other input is rejected, like strptime rejects
strings it cannot consume completely. -/
def strptime (s : List Char) (fmt : DateFmt) : Except String Datetime :=
  match fmt with
  | .ymd =>
    if s.length = 8 then
      match digitsToNat (s.take 4), digitsToNat ((s.drop 4).take 2), digitsToNat (s.drop 6) with
      | some y, some mo, some d => mkDatetime y mo d 0 0 0
      | _, _, _ => Except.error "ValueError: unconverted data"
    else Except.error "ValueError: unconverted data"
  | .ymdhms =>
    if s.length = 14 then
      match digitsToNat (s.take 4), digitsToNat ((s.drop 4).take 2), digitsToNat ((s.drop 6).take 2),
            digitsToNat ((s.drop 8).take 2), digitsToNat ((s.drop 10).take 2), digitsToNat (s.drop 12) with
      | some y, some mo, some d, some h, some mi, some sec => mkDatetime y mo d h mi sec
      | _, _, _, _, _, _ => Except.error "ValueError: unconverted data"
    else Except.error "ValueError: unconverted data"

/-- `filespec.to_date(date, fmt="%Y%m%d")`.

Mirrors the source: a datetime is returned as is; a string has `"-"` removed
and is parsed with `"%Y%m%d%H%M%S"` when 14 characters remain, else with
`fmt`; an int is decomposed with divmod into (year, month, day) and passed to
the `datetime` constructor; every failure, and every other input — in
particular the input `None` — raises `FileSpecificationException`
(modelled as `Except.error`). -/
def to_date (date : PyDate) (fmt : DateFmt := .ymd) : Except String Datetime :=
  match date with
  | .dt d => Except.ok d
  | .str s =>
    let rtn := s.data.filter (fun c => c ≠ '-')
    let fmt := if rtn.length = 14 then DateFmt.ymdhms else fmt
    match strptime rtn fmt with
    | .ok d => Except.ok d
    | .error _ => Except.error "Unable to convert into date"
  | .int n =>
    let rest := Int.ediv n 100
    let day := Int.emod n 100
    let year := Int.ediv rest 100
    let month := Int.emod rest 100
    if year < 0 then Except.error "Unable to convert into date"
    else
      match mkDatetime year.toNat month.toNat day.toNat 0 0 0 with
      | .ok d => Except.ok d
      | .error _ => Except.error "Unable to convert into date"
  | .pynone => Except.error "Unable to convert into date: None"

/-- `filespec.Period`: the two field names bounding a record's validity
window, and whether the upper bound is inclusive (default exclusive). -/
structure Period where
  field_from : Option String
  field_to : Option String
  inclusive : Bool
deriving DecidableEq, Repr

/-- `filespec.DateFilter` after construction: a normalized effective date and
optional period bounds. -/
structure DateFilter where
  effective_date : Datetime
  period_from : Option Datetime
  period_until : Option Datetime
deriving DecidableEq, Repr

/-- `DateFilter.__init__(effective_date=None, period_from=None,
period_until=None, fmt="%Y%m%d")`. A `None` effective date is replaced by
`datetime.now()` (the parameter `now`) before conversion; the period bounds
stay `None` when omitted and are converted by `to_date` otherwise. -/
def mkDateFilter (now : Datetime) (effective_date : Option PyDate)
    (period_from period_until : Option PyDate) (fmt : DateFmt := .ymd) :
    Except String DateFilter := do
  let ed : PyDate := match effective_date with
    | none => .dt now
    | some e => e
  let e ← to_date ed fmt
  let pf ← match period_from with
    | none => pure none
    | some p => (to_date p fmt).map some
  let pu ← match period_until with
    | none => pure none
    | some p => (to_date p fmt).map some
  pure ⟨e, pf, pu⟩

/-- The validated `ENABLED` configuration: either a boolean or a
(from, to) pair of optional dates. -/
inductive Enabled where
  | flag (b : Bool)
  | range (afrom bto : Option Datetime)
deriving DecidableEq, Repr

/-- `FileSpecification.is_active(effective_date)`.

Mirrors the source: a boolean `ENABLED` is returned directly; a `None`
effective date is always active; otherwise return false when the date is
before the `from` bound or not before the `to` bound, else true. (In the
source the bounds are re-run through `to_date`, which on already-converted
datetimes is the identity.) -/
def is_active (enabled : Enabled) (effective_date : Option Datetime) : Bool :=
  match enabled with
  | .flag b => b
  | .range afrom bto =>
    match effective_date with
    | none => true
    | some d =>
      if (match afrom with | some a => dtLtB d a | none => false) then false
      else if (match bto with | some b => dtLeB b d | none => false) then false
      else true

/-- A dataframe cell: a datetime, a string, an integer, or a missing value
(pandas `NaN`/`NaT`). -/
inductive Cell where
  | dt (d : Datetime)
  | str (s : String)
  | intv (n : Int)
  | na
deriving DecidableEq, Repr

/-- A dataframe row: column name to cell value. -/
abbrev Row : Type := List (String × Cell)

/-- Value of a row in a column (a column absent from the row reads as
missing). -/
def getCol (r : Row) (c : String) : Cell :=
  match r.find? (fun p => p.1 == c) with
  | some p => p.2
  | none => Cell.na

/-- Pandas `notna`: true for every non-missing cell. -/
def notNa : Cell → Bool
  | .na => false
  | _ => true

/-- Pandas elementwise `column <= date` on a datetime column: missing values
(and non-datetime cells) compare false. -/
def cellLeDt (x : Cell) (d : Datetime) : Bool :=
  match x with
  | .dt v => dtLeB v d
  | _ => false

/-- Pandas elementwise `column >= date` on a datetime column: missing values
(and non-datetime cells) compare false. -/
def cellGeDt (x : Cell) (d : Datetime) : Bool :=
  match x with
  | .dt v => dtLeB d v
  | _ => false

/-- `ExceFileReader.filter_effective_date(dframe, effective_date)`.

`if col:` — the step only runs for a non-`None`, non-empty
`EFFECTIVE_DATE_FIELD`; it drops the rows whose value in that column is
missing, then keeps the rows whose value is `<= effective_date`. -/
def filter_effective_date (rows : List Row) (effective_date_field : Option String)
    (effective_date : Datetime) : List Row :=
  match effective_date_field with
  | none => rows
  | some col =>
    if col.isEmpty then rows
    else
      let rows := rows.filter (fun r => notNa (getCol r col))
      rows.filter (fun r => cellLeDt (getCol r col) effective_date)

/-- The value held by `ExceFileReader.period_date_fields`: Python `None`, a
`Period` object (what `validate_PERIOD_DATE_FIELDS` stores), or a plain
list/tuple of column names. -/
inductive ColsCfg where
  | cnone
  | cPeriod (p : Period)
  | cList (l : List String)
deriving DecidableEq, Repr

/-- What `_get_cols` returns in its first component: either a column name or,
when `period_date_fields` is a `Period` object (which is neither falsy nor a
list/tuple), the object itself. -/
inductive ColRef where
  | name (s : String)
  | periodRef (p : Period)
deriving DecidableEq, Repr

/-- `ExceFileReader._get_cols(cols)`.

`None` and the empty list are falsy and give no columns; a non-empty
list/tuple gives its first (and, if present, second) element; any other
truthy object — in particular a `Period` — is itself used as
`col_start_date`, with no `col_end_date`. -/
def get_cols : ColsCfg → Option ColRef × Option String
  | .cnone => (none, none)
  | .cPeriod p => (some (.periodRef p), none)
  | .cList [] => (none, none)
  | .cList (a :: rest) => (some (.name a), rest.head?)

/-- `ExceFileReader.START_OF_ALL_TIMES`. -/
def START_OF_ALL_TIMES : Datetime := ⟨1970, 1, 1, 0, 0, 0⟩

/-- `ExceFileReader.END_OF_ALL_TIMES`. -/
def END_OF_ALL_TIMES : Datetime := ⟨2249, 12, 31, 0, 0, 0⟩

/-- `ExceFileReader.filter_period(dframe, period_from, period_until)`.

Each bound only applies when `_get_cols` produced a truthy column for it and
the bound is given. The source's `dframe.loc[:, [col]].fillna(default,
inplace=True)` fills a fresh copy of the column, not `dframe`, so missing
values are in fact not defaulted and simply compare false in the subsequent
comparison. Using a `Period` object as a dataframe column raises a pandas
`KeyError` (modelled as an error). -/
def filter_period_excel (rows : List Row) (cfg : ColsCfg)
    (period_from period_until : Option Datetime) : Except String (List Row) := do
  let cols := get_cols cfg
  let rows ← match cols.1, period_from with
    | some (.name col), some pf =>
      if col.isEmpty then pure rows
      else pure (rows.filter (fun r => cellLeDt (getCol r col) pf))
    | some (.periodRef _), some _ => Except.error "KeyError"
    | _, _ => pure rows
  let rows ← match cols.2, period_until with
    | some col, some pu =>
      if col.isEmpty then pure rows
      else pure (rows.filter (fun r => cellGeDt (getCol r col) pu))
    | _, _ => pure rows
  pure rows

/-- Insert a row into a le-sorted list, keeping earlier-inserted rows first
among ties. -/
def insertSorted (le : Row → Row → Bool) (a : Row) : List Row → List Row
  | [] => [a]
  | b :: bs => if le a b then a :: b :: bs else b :: insertSorted le a bs

/-- Insertion sort, modelling `DataFrame.sort_values` (which sorts rows by
the given key; pandas' default algorithm is unstable, so no particular tie
order is promised). -/
def sortRows (le : Row → Row → Bool) : List Row → List Row
  | [] => []
  | a :: as => insertSorted le a (sortRows le as)

/-- Ascending order on cells used for `sort_values(col, ascending=True)`:
datetimes by their value, missing values last (pandas puts NaN last). -/
def cellSortLe (a b : Cell) : Bool :=
  match a, b with
  | .dt x, .dt y => dtLeB x y
  | .dt _, _ => true
  | .na, .na => true
  | .na, _ => false
  | _, .na => true
  | _, .dt _ => false
  | _, _ => true

/-- `dframe.sort_values(sort_col, ascending=True)`. -/
def sortByCol (rows : List Row) (col : String) : List Row :=
  sortRows (fun r1 r2 => cellSortLe (getCol r1 col) (getCol r2 col)) rows

/-- `dframe.groupby(key).tail(1)`: group rows by the value of the `key`
column and keep the last row of each group, preserving the frame order.
A row is kept exactly when its key is present (pandas `groupby` drops
missing keys) and no later row carries the same key. -/
def tailPerKey (key : String) : List Row → List Row
  | [] => []
  | r :: rest =>
    if getCol r key = Cell.na then tailPerKey key rest
    else if ∃ s ∈ rest, getCol s key = getCol r key then tailPerKey key rest
    else r :: tailPerKey key rest

/-- `ExceFileReader.filter_tail(dframe, key, sort_col=None, ascending=True)`.

`if key:` / `if sort_col:` — with a truthy key the frame is first sorted by
`sort_col` when that is truthy, then grouped by `key` keeping the last row
per group (`reset_index` only renumbers rows and is invisible in this list
model); with no key the frame is returned unchanged. -/
def filter_tail (rows : List Row) (key : Option String) (sort_col : Option String) : List Row :=
  match key with
  | none => rows
  | some k =>
    if k.isEmpty then rows
    else
      let rows := match sort_col with
        | some c => if c.isEmpty then rows else sortByCol rows c
        | none => rows
      tailPerKey k rows

/-- `ExceFileReader.filter(dframe, period_from, period_until,
effective_date)`: effective-date filter, then period filter, then
`filter_tail(key=self.index_col, sort_col=self.effective_date_field)`. -/
def excel_filter (rows : List Row) (effective_date_field : Option String)
    (period_cfg : ColsCfg) (index_col : Option String)
    (period_from period_until : Option Datetime) (effective_date : Datetime) :
    Except String (List Row) := do
  let rows := filter_effective_date rows effective_date_field effective_date
  let rows ← filter_period_excel rows period_cfg period_from period_until
  pure (filter_tail rows index_col effective_date_field)

/-- A fixed-width-file row: field name to the raw byte string of the field. -/
abbrev FwfRow : Type := List (String × List Nat)

/-- `line[field]`: the raw bytes of a field. -/
def getField (r : FwfRow) (f : String) : List Nat :=
  match r.find? (fun p => p.1 == f) with
  | some p => p.2
  | none => []

/-- Python `bytes` comparison `x <= y` (lexicographic). -/
def bytesLeB : List Nat → List Nat → Bool
  | [], _ => true
  | _ :: _, [] => false
  | a :: as, b :: bs => if a < b then true else if b < a then false else bytesLeB as bs

/-- Python `bytes` comparison `x < y` (lexicographic). -/
def bytesLtB : List Nat → List Nat → Bool
  | [], [] => false
  | [], _ :: _ => true
  | _ :: _, [] => false
  | a :: as, b :: bs => if a < b then true else if b < a then false else bytesLtB as bs

/-- The decimal digits of `n`, zero-padded to width `w`, as ASCII bytes. -/
def padDigits (w n : Nat) : List Nat :=
  (List.range w).map (fun i => 48 + n / 10 ^ (w - 1 - i) % 10)

/-- `date.strftime(fmt).encode("utf-8")` for the two formats of the model. -/
def strftimeBytes (fmt : DateFmt) (d : Datetime) : List Nat :=
  match fmt with
  | .ymd => padDigits 4 d.year ++ padDigits 2 d.month ++ padDigits 2 d.day
  | .ymdhms => padDigits 4 d.year ++ padDigits 2 d.month ++ padDigits 2 d.day
      ++ padDigits 2 d.hour ++ padDigits 2 d.minute ++ padDigits 2 d.second

/-- `FWFFileReader.apply_effective_date_filter(data, field, effective_date)`:
encode the effective date with the field's strftime format and keep the lines
whose field bytes are `<=` the encoded date. -/
def apply_effective_date_filter_fwf (rows : List FwfRow) (field : String)
    (fmt : DateFmt) (effective_date : Datetime) : List FwfRow :=
  let eff := strftimeBytes fmt effective_date
  rows.filter (fun r => bytesLeB (getField r field) eff)

/-- `FWFFileReader.period_boundaries_to_bytes(fields, _filter, None)`: each
boundary is encoded (with the strftime format of its field, looked up through
`fmtOf`) exactly when both the field name and the filter bound are set. -/
def period_boundaries_to_bytes (p : Period) (f : DateFilter) (fmtOf : String → DateFmt) :
    Option (List Nat) × Option (List Nat) :=
  let xfrom := match p.field_from, f.period_from with
    | some cf, some d => some (strftimeBytes (fmtOf cf) d)
    | _, _ => none
  let xto := match p.field_to, f.period_until with
    | some ct, some d => some (strftimeBytes (fmtOf ct) d)
    | _, _ => none
  (xfrom, xto)

/-- `FWFFileReader.apply_period_filter(data, fields, _filter)`: filter by the
lower bound when present (`line[field_from] <= pfrom`), then by the upper
bound when present — `line[field_to] >= pto` when `fields.inclusive` is true,
`line[field_to] > pto` otherwise. -/
def apply_period_filter_fwf (rows : List FwfRow) (p : Period) (f : DateFilter)
    (fmtOf : String → DateFmt) : List FwfRow :=
  let bounds := period_boundaries_to_bytes p f fmtOf
  let rows := match bounds.1, p.field_from with
    | some pf, some cf => rows.filter (fun r => bytesLeB (getField r cf) pf)
    | _, _ => rows
  match bounds.2, p.field_to with
  | some pt, some ct =>
    if p.inclusive then rows.filter (fun r => bytesLeB pt (getField r ct))
    else rows.filter (fun r => bytesLtB pt (getField r ct))
  | _, _ => rows

/-- `BaseFileReader.load(file, _filter)` after `load_file`, instantiated with
the fixed-width reader's filter steps: apply the effective-date filter only
when `EFFECTIVE_DATE_FIELD` is truthy, then the period filter only when
`PERIOD_DATE_FIELDS` is not `None`. -/
def base_load_fwf (rows : List FwfRow) (effective_date_field : Option String)
    (period_date_fields : Option Period) (f : DateFilter) (fmtOf : String → DateFmt) :
    List FwfRow :=
  let rows := match effective_date_field with
    | some field =>
      if field.isEmpty then rows
      else apply_effective_date_filter_fwf rows field (fmtOf field) f.effective_date
    | none => rows
  match period_date_fields with
  | some p => apply_period_filter_fwf rows p f fmtOf
  | none => rows

/-- Try the greedy token lengths of the default regex `\.(\d{8,14})\.` at a
fixed position: the longest run of `k` digits (14 down to 8) directly
followed by a dot, mirroring the greedy-with-backtracking matching of
`\d{8,14}`. -/
def tokenAt (rest : List Char) : Nat → Option (List Char)
  | 0 => none
  | k + 1 =>
    if k + 1 < 8 then none
    else if (rest.take (k + 1)).length = k + 1 ∧ (rest.take (k + 1)).all Char.isDigit
        ∧ (rest.drop (k + 1)).head? = some '.' then
      some (rest.take (k + 1))
    else tokenAt rest k

/-- Match the default regex at the start of the input: a dot, then 8–14
digits, then a dot; yields the digit group. -/
def matchToken : List Char → Option (List Char)
  | '.' :: rest => tokenAt rest 14
  | _ => none

/-- `re.search` with the default regex `\.(\d{8,14})\.`: the leftmost match's
digit group, or `none` when the pattern occurs nowhere in the file name. -/
def findToken : List Char → Option (List Char)
  | [] => none
  | c :: rest =>
    match matchToken (c :: rest) with
    | some t => some t
    | none => findToken rest

/-- `FileSpecification.extract_datetime_from_filename(file, regex)` with the
default regex: the matched digit group, or a `FileSpecificationException`
("Expected file name to contain timestamp") when there is no match. -/
def extract_datetime_from_filename (file : List Char) : Except String (List Char) :=
  match findToken file with
  | some t => Except.ok t
  | none => Except.error "Expected file name to contain timestamp"

/-- `FileSpecification.file_filter(file, effective_date)` with
`DATE_FROM_FILENAME_REGEX` either `None` (`regexConfigured = false`) or the
default regex. A `None` effective date or a `None` regex passes; otherwise
the date token is extracted (raising when absent), converted by
`datetime_from_filename` via `to_date`, and compared `<= effective_date`
(the `file_date is None` disjunct of the source is dead: `to_date` never
returns `None`). -/
def file_filter (regexConfigured : Bool) (file : List Char)
    (effective_date : Option Datetime) : Except String Bool :=
  match effective_date with
  | none => Except.ok true
  | some eff =>
    if !regexConfigured then Except.ok true
    else do
      let tok ← extract_datetime_from_filename file
      let d ← to_date (.str (String.mk tok)) .ymd
      pure (dtLeB d eff)

/-- Python `str.isupper()`: at least one cased character, and no cased
character is lowercase (restricted to letters; names here are ASCII letters,
digits and underscores). -/
def pyIsUpper (s : String) : Bool :=
  s.data.any (fun c => c.isUpper) && s.data.all (fun c => !c.isLower)

/-- First value bound to a name in an association list (a Python attribute or
method lookup). -/
def lookupA {α : Type} (l : List (String × α)) (n : String) : Option α :=
  match l with
  | [] => none
  | p :: rest => if p.1 == n then some p.2 else lookupA rest n

/-- Rebind a name in an association list (a Python attribute store on an
existing attribute). -/
def setA {α : Type} (l : List (String × α)) (n : String) (v : α) : List (String × α) :=
  l.map (fun p => if p.1 == n then (p.1, v) else p)

/-- Model of a `FileSpecification` object for the validation framework:
`attrs` holds the upper-case configuration attributes with their current
values, `validators` maps each configuration name `X` to the method
`validate_X` (an absent entry models an absent method), and `fieldsInit`
counts how many times `init()` has re-derived the field table. Configuration
values are drawn from an arbitrary type `V` with decidable equality,
standing for the Python values a validator receives and returns. -/
structure PySpec (V : Type) where
  attrs : List (String × V)
  validators : List (String × (V → Except String V))
  fieldsInit : Nat

/-- `FileSpecification.__setattr__(name, value)`.

For an upper-case name: read the current value (an absent attribute raises),
look up `validate_<name>` (an absent method raises), run it (a validator
failure raises and leaves the attribute unchanged); when the normalized value
equals the current value return immediately — no store, no `init()`;
otherwise store the normalized value, and re-run `init()` when the name is
`FIELDSPECS`. Non-upper-case names are ordinary attribute stores outside the
configuration model. -/
def spec_setattr {V : Type} [DecidableEq V] (s : PySpec V) (name : String) (value : V) :
    Except String (PySpec V) :=
  if pyIsUpper name then
    match lookupA s.attrs name with
    | none => Except.error "AttributeError"
    | some cur =>
      match lookupA s.validators name with
      | none => Except.error "AttributeError"
      | some f =>
        match f value with
        | .error _ => Except.error ("Validation error for " ++ name)
        | .ok v =>
          if v = cur then Except.ok s
          else
            let s1 : PySpec V := ⟨setA s.attrs name v, s.validators, s.fieldsInit⟩
            if name = "FIELDSPECS" then
              Except.ok ⟨s1.attrs, s1.validators, s1.fieldsInit + 1⟩
            else Except.ok s1
  else Except.ok s

/-- The per-attribute loop of `FileSpecification.validate()`: for every
upper-case attribute make sure `validate_<name>` exists (else raise), then
re-assign the attribute its own current value through `__setattr__`, which
validates and normalizes it. -/
def spec_validate_go {V : Type} [DecidableEq V] :
    PySpec V → List (String × V) → Except String (PySpec V)
  | st, [] => Except.ok st
  | st, (name, _) :: rest =>
    if pyIsUpper name then
      match lookupA st.validators name with
      | none => Except.error ("Found a config with name " ++ name
          ++ ". Corresponding function validate_" ++ name ++ " is missing")
      | some _ =>
        match lookupA st.attrs name with
        | none => Except.error "AttributeError"
        | some cur =>
          match spec_setattr st name cur with
          | .ok st2 => spec_validate_go st2 rest
          | .error e => Except.error e
    else spec_validate_go st rest

/-- `FileSpecification.validate()`.

The source makes a single pass over `dir(self)`, which interleaves the two
checks; splitting them — first "every `validate_X` with upper-case `X` has an
attribute `X`", then "every upper-case attribute has a validator, and
revalidates" — fails on exactly the same specifications, possibly reporting a
different one of the configuration errors first. -/
def spec_validate {V : Type} [DecidableEq V] (s : PySpec V) : Except String (PySpec V) :=
  match s.validators.find? (fun p => pyIsUpper p.1 && (lookupA s.attrs p.1).isNone) with
  | some p => Except.error ("Missing the " ++ p.1 ++ " variable matching validate_" ++ p.1)
  | none => spec_validate_go s s.attrs

/-- A Python object, as far as `validate_FIELDSPECS` inspects one. -/
inductive PyObj where
  | pynone
  | pybool (b : Bool)
  | pyint (n : Int)
  | pystr (s : String)
  | pylist (l : List PyObj)
  | pydict (entries : List (PyObj × PyObj))

/-- The error message of `FileSpecification.validation_error` for
`FIELDSPECS` (the source appends the repr of the offending data). -/
def errFIELDSPECS : String := "Invalid value for FIELDSPECS"

/-- The element loop of `validate_FIELDSPECS`: every element must be a dict,
and all its keys must be strings. -/
def checkFieldspecElems : List PyObj → Except String Unit
  | [] => Except.ok ()
  | .pydict es :: rest =>
    if es.all (fun kv => match kv.1 with | .pystr _ => true | _ => false) then
      checkFieldspecElems rest
    else Except.error errFIELDSPECS
  | _ :: _ => Except.error errFIELDSPECS

/-- `FileSpecification.validate_FIELDSPECS(data)`: a list whose elements are
dicts with string keys is returned unchanged; everything else — including the
default `None` — raises a `FileSpecificationException` naming `FIELDSPECS`. -/
def validate_FIELDSPECS (data : PyObj) : Except String PyObj :=
  match data with
  | .pylist l => (checkFieldspecElems l).map (fun _ => PyObj.pylist l)
  | _ => Except.error errFIELDSPECS

/-- `FileSpecification.new_filespec()` as far as construction is concerned:
`assert self.FIELDSPECS is not None` — a specification left at the default
`FIELDSPECS = None` fails with an `AssertionError` before any reader-specific
field table is built. -/
def new_filespec (fieldspecs : PyObj) : Except String PyObj :=
  match fieldspecs with
  | .pynone => Except.error "AssertionError: FIELDSPECS is None"
  | data => Except.ok data

/-- `FileSpecification.__init__` / `init()`, restricted to the `FIELDSPECS`
configuration: build the field table (`self.fields = self.new_filespec()`),
then run the validators — for `FIELDSPECS`, `validate_FIELDSPECS` — over the
configured values. -/
def filespec_init (fieldspecs : PyObj) : Except String PyObj := do
  let _fields ← new_filespec fieldspecs
  validate_FIELDSPECS fieldspecs

/-- The shape `validate_FIELDSPECS` accepts, in the words of the claim: a
list whose elements are dicts with string keys. -/
def fieldspecsWellShaped (data : PyObj) : Prop :=
  ∃ l, data = PyObj.pylist l ∧
    ∀ e ∈ l, ∃ es, e = PyObj.pydict es ∧ ∀ kv ∈ es, ∃ s, kv.1 = PyObj.pystr s

/-- Concrete specification used to exercise the assignment model: one
configuration attribute `ENABLED` holding `1`, validated by the identity. -/
def wSpecIdent : PySpec Nat := ⟨[("ENABLED", 1)], [("ENABLED", fun v => Except.ok v)], 0⟩

/-- Concrete specification used to exercise construction-time validation: one
configuration attribute `ENABLED` holding `5`, whose validator normalizes
every value to `7`. -/
def wSpecNorm : PySpec Nat := ⟨[("ENABLED", 5)], [("ENABLED", fun _ => Except.ok 7)], 0⟩

theorem bytesLeB_refl (x : List Nat) : bytesLeB x x = true := by
  induction x with
  | nil => rfl
  | cons a as ih => simp [bytesLeB, ih]

theorem bytesLtB_irrefl (x : List Nat) : bytesLtB x x = false := by
  induction x with
  | nil => rfl
  | cons a as ih => simp [bytesLtB, ih]

theorem bytesLtB_eq_leB_of_ne {x y : List Nat} (h : x ≠ y) : bytesLtB x y = bytesLeB x y := by
  induction x generalizing y with
  | nil =>
    cases y with
    | nil => exact absurd rfl h
    | cons b bs => rfl
  | cons a as ih =>
    cases y with
    | nil => rfl
    | cons b bs =>
      by_cases hab : a < b
      · simp [bytesLtB, bytesLeB, hab]
      · by_cases hba : b < a
        · simp [bytesLtB, bytesLeB, hab, hba]
        · have hab' : a = b := Nat.le_antisymm (Nat.not_lt.mp hba) (Nat.not_lt.mp hab)
          subst hab'
          have hne : as ≠ bs := by
            intro hc; exact h (by rw [hc])
          simp [bytesLtB, bytesLeB, ih hne]

/-- C5: with `ENABLED` a boolean, `is_active` returns it directly; with
`ENABLED = [A, B]` (both bounds set) and a non-`None` date `d`, `is_active`
is true exactly when `A <= d < B` (so `d = A` is active and `d = B` is not),
and whenever `A >= B` every date is inactive. -/
theorem c5_is_active_boundary :
    (∀ (b : Bool) (d : Option Datetime), is_active (.flag b) d = b) ∧
    (∀ A B d : Datetime,
      is_active (.range (some A) (some B)) (some d) = true ↔
        (dtLeB A d = true ∧ dtLtB d B = true)) ∧
    (∀ A B d : Datetime, dtLeB B A = true →
      is_active (.range (some A) (some B)) (some d) = false) := by
  refine ⟨fun b d => rfl, fun A B d => ?_, fun A B d h => ?_⟩
  · simp only [is_active, dtLeB, dtLtB]
    split_ifs with h1 h2 <;> simp_all <;> omega
  · simp only [is_active, dtLeB, dtLtB] at h ⊢
    split_ifs with h1 h2 <;> simp_all <;> omega

/-- C5 witness: `ENABLED = [2018-01-01, 2018-01-01]` (from = to) is inactive
at 2020-05-05. -/
theorem c5_is_active_witness :
    is_active (.range (some ⟨2018, 1, 1, 0, 0, 0⟩) (some ⟨2018, 1, 1, 0, 0, 0⟩))
      (some ⟨2020, 5, 5, 0, 0, 0⟩) = false :=
  c5_is_active_boundary.2.2 ⟨2018, 1, 1, 0, 0, 0⟩ ⟨2018, 1, 1, 0, 0, 0⟩
    ⟨2020, 5, 5, 0, 0, 0⟩ (by decide)

/-- C6: `to_date` applied to Python `None` raises a
`FileSpecificationException` instead of returning "now" (the function has no
`default` parameter, contrary to its docstring); `DateFilter` nevertheless
defaults an omitted effective date to `datetime.now()` because its
constructor substitutes `now` before calling `to_date`. -/
theorem c6_to_date_none :
    to_date PyDate.pynone DateFmt.ymd = Except.error "Unable to convert into date: None" ∧
    ∀ now : Datetime,
      mkDateFilter now none none none DateFmt.ymd = Except.ok ⟨now, none, none⟩ :=
  ⟨rfl, fun _ => rfl⟩

theorem checkFieldspecElems_ok_iff (l : List PyObj) :
    checkFieldspecElems l = Except.ok () ↔
      ∀ e ∈ l, ∃ es, e = PyObj.pydict es ∧ ∀ kv ∈ es, ∃ s, kv.1 = PyObj.pystr s := by
  induction l with
  | nil => simp [checkFieldspecElems]
  | cons e rest ih =>
    cases e with
    | pydict es =>
      by_cases hall : es.all (fun kv => match kv.1 with | .pystr _ => true | _ => false) = true
      · rw [checkFieldspecElems, if_pos hall, ih]
        constructor
        · intro h x hx
          rcases List.mem_cons.mp hx with hx | hx
          · subst hx
            refine ⟨es, rfl, ?_⟩
            intro kv hkv
            have hkv2 := (List.all_eq_true.mp hall) kv hkv
            cases hk : kv.1 with
            | pystr s => exact ⟨s, rfl⟩
            | pynone => rw [hk] at hkv2; simp at hkv2
            | pybool b => rw [hk] at hkv2; simp at hkv2
            | pyint n => rw [hk] at hkv2; simp at hkv2
            | pylist l3 => rw [hk] at hkv2; simp at hkv2
            | pydict es3 => rw [hk] at hkv2; simp at hkv2
          · exact h x hx
        · intro h x hx
          exact h x (List.mem_cons_of_mem _ hx)
      · rw [checkFieldspecElems, if_neg hall]
        constructor
        · intro h; exact Except.noConfusion h
        · intro h
          exfalso
          rcases h (PyObj.pydict es) (List.mem_cons_self _ _) with ⟨es2, heq, hkeys⟩
          cases heq
          apply hall
          rw [List.all_eq_true]
          intro kv hkv
          rcases hkeys kv hkv with ⟨s, hs⟩
          simp [hs]
    | pynone =>
      simp only [checkFieldspecElems]
      constructor
      · intro h; exact absurd h (by simp [errFIELDSPECS])
      · intro h
        rcases h PyObj.pynone (List.mem_cons_self _ _) with ⟨es, heq, -⟩
        exact PyObj.noConfusion heq
    | pybool b =>
      simp only [checkFieldspecElems]
      constructor
      · intro h; exact absurd h (by simp [errFIELDSPECS])
      · intro h
        rcases h (PyObj.pybool b) (List.mem_cons_self _ _) with ⟨es, heq, -⟩
        exact PyObj.noConfusion heq
    | pyint n =>
      simp only [checkFieldspecElems]
      constructor
      · intro h; exact absurd h (by simp [errFIELDSPECS])
      · intro h
        rcases h (PyObj.pyint n) (List.mem_cons_self _ _) with ⟨es, heq, -⟩
        exact PyObj.noConfusion heq
    | pystr s =>
      simp only [checkFieldspecElems]
      constructor
      · intro h; exact absurd h (by simp [errFIELDSPECS])
      · intro h
        rcases h (PyObj.pystr s) (List.mem_cons_self _ _) with ⟨es, heq, -⟩
        exact PyObj.noConfusion heq
    | pylist l2 =>
      simp only [checkFieldspecElems]
      constructor
      · intro h; exact absurd h (by simp [errFIELDSPECS])
      · intro h
        rcases h (PyObj.pylist l2) (List.mem_cons_self _ _) with ⟨es, heq, -⟩
        exact PyObj.noConfusion heq

theorem checkFieldspecElems_ok_or_error (l : List PyObj) :
    checkFieldspecElems l = Except.ok () ∨ checkFieldspecElems l = Except.error errFIELDSPECS := by
  induction l with
  | nil => left; rfl
  | cons e rest ih =>
    cases e with
    | pydict es =>
      by_cases hall : es.all (fun kv => match kv.1 with | .pystr _ => true | _ => false) = true
      · rw [checkFieldspecElems, if_pos hall]; exact ih
      · rw [checkFieldspecElems, if_neg hall]; right; rfl
    | pynone => right; rfl
    | pybool b => right; rfl
    | pyint n => right; rfl
    | pystr s => right; rfl
    | pylist l2 => right; rfl

/-- C10: constructing a specification with `FIELDSPECS` left at the default
`None` fails (the `assert` in `new_filespec` fires); `validate_FIELDSPECS`
accepts exactly the lists whose elements are dicts with string keys, and
rejects every other shape with a `FileSpecificationException` naming
`FIELDSPECS`. -/
theorem c10_fieldspecs_validation :
    filespec_init PyObj.pynone = Except.error "AssertionError: FIELDSPECS is None" ∧
    (∀ data : PyObj,
      (∃ v, validate_FIELDSPECS data = Except.ok v) ↔ fieldspecsWellShaped data) ∧
    (∀ data : PyObj, ¬ fieldspecsWellShaped data →
      validate_FIELDSPECS data = Except.error errFIELDSPECS) := by
  refine ⟨rfl, fun data => ?_, fun data hbad => ?_⟩
  · constructor
    · rintro ⟨v, hv⟩
      cases data with
      | pylist l =>
        rcases checkFieldspecElems_ok_or_error l with h | h
        · exact ⟨l, rfl, (checkFieldspecElems_ok_iff l).mp h⟩
        · rw [validate_FIELDSPECS, h] at hv
          exact Except.noConfusion hv
      | pynone => exact Except.noConfusion hv
      | pybool b => exact Except.noConfusion hv
      | pyint n => exact Except.noConfusion hv
      | pystr s => exact Except.noConfusion hv
      | pydict es => exact Except.noConfusion hv
    · rintro ⟨l, rfl, hshape⟩
      refine ⟨PyObj.pylist l, ?_⟩
      rw [validate_FIELDSPECS, (checkFieldspecElems_ok_iff l).mpr hshape]
      rfl
  · cases data with
    | pylist l =>
      rcases checkFieldspecElems_ok_or_error l with h | h
      · exact absurd ⟨l, rfl, (checkFieldspecElems_ok_iff l).mp h⟩ hbad
      · rw [validate_FIELDSPECS, h]; rfl
    | pynone => rfl
    | pybool b => rfl
    | pyint n => rfl
    | pystr s => rfl
    | pydict es => rfl

/-- C10 witness: `FIELDSPECS = 5` (an int) is not well shaped and is rejected
with the error naming `FIELDSPECS`. -/
theorem c10_fieldspecs_witness :
    validate_FIELDSPECS (PyObj.pyint 5) = Except.error errFIELDSPECS :=
  c10_fieldspecs_validation.2.2 (PyObj.pyint 5)
    (by rintro ⟨l, h, -⟩; exact PyObj.noConfusion h)

/-- C7 (amended): with no regex configured, or a `None` effective date,
`file_filter` passes unconditionally; with the default regex configured and a
token found, it returns exactly whether the token converted to a date is
`<= effective_date`; but when the configured regex finds **no** token in the
file name, `file_filter` raises the `FileSpecificationException` of
`extract_datetime_from_filename` instead of passing. -/
theorem c7_file_filter_behavior :
    (∀ (file : List Char) (eff : Datetime),
      file_filter false file (some eff) = Except.ok true) ∧
    (∀ (file : List Char) (r : Bool), file_filter r file none = Except.ok true) ∧
    (∀ (file : List Char) (eff : Datetime) (tok : List Char), findToken file = some tok →
      file_filter true file (some eff)
        = (to_date (.str (String.mk tok)) .ymd).map (fun d => dtLeB d eff)) ∧
    (∀ (file : List Char) (eff : Datetime), findToken file = none →
      file_filter true file (some eff)
        = Except.error "Expected file name to contain timestamp") := by
  refine ⟨fun file eff => rfl, fun file r => rfl,
    fun file eff tok h => ?_, fun file eff h => ?_⟩
  · simp only [file_filter, extract_datetime_from_filename, h]
    cases h2 : to_date (.str (String.mk tok)) .ymd with
    | ok d => simp [h2, Except.map, bind, Except.bind, Functor.map, pure, Except.pure]
    | error e => simp [h2, Except.map, bind, Except.bind, Functor.map, pure, Except.pure]
  · simp [file_filter, extract_datetime_from_filename, h, bind, Except.bind]

/-- C7 witness: `"abc.20200101.csv"` carries the token `"20200101"`, which
converts to 2020-01-01 and is on/before the effective date 2020-12-31, so the
filter passes. -/
theorem c7_file_filter_witness :
    file_filter true ("abc.20200101.csv".data) (some ⟨2020, 12, 31, 0, 0, 0⟩)
      = (to_date (.str (String.mk ("20200101".data))) .ymd).map
          (fun d => dtLeB d ⟨2020, 12, 31, 0, 0, 0⟩) :=
  c7_file_filter_behavior.2.2.1 ("abc.20200101.csv".data) ⟨2020, 12, 31, 0, 0, 0⟩
    ("20200101".data) (by decide)

/-- C7 counterexample: the claim says a file name with no date token passes
unconditionally; on `"data.txt"` the code instead raises. -/
theorem c7_file_filter_counterexample :
    file_filter true ("data.txt".data) (some ⟨2099, 1, 1, 0, 0, 0⟩)
        = Except.error "Expected file name to contain timestamp" ∧
      file_filter true ("data.txt".data) (some ⟨2099, 1, 1, 0, 0, 0⟩) ≠ Except.ok true := by
  constructor
  · rfl
  · intro hc
    have h1 : file_filter true ("data.txt".data) (some ⟨2099, 1, 1, 0, 0, 0⟩)
        = Except.error "Expected file name to contain timestamp" := rfl
    rw [h1] at hc
    exact Except.noConfusion hc

/-- C1 (amended): for the fixed-width reader's period filter the claim holds
as stated — with only `period_until` set, a row whose `field_to` bytes equal
the encoded `period_until` is excluded when `Period.inclusive` is false and
included when it is true, and rows with a different `field_to` value fare the
same under both flags (kept iff value `>` the bound, equivalently `>=`). The
Excel reader, however, does not follow the claim: with `PERIOD_DATE_FIELDS`
normalized to a `Period` object, `_get_cols` yields no end column, so
`filter_period` applies no upper bound at all and ignores `inclusive`. -/
theorem c1_period_upper_bound :
    (∀ (ffrom : Option String) (t : String) (u eff : Datetime)
        (fmtOf : String → DateFmt) (rows : List FwfRow) (r : FwfRow),
      (getField r t = strftimeBytes (fmtOf t) u →
        (r ∉ apply_period_filter_fwf rows ⟨ffrom, some t, false⟩ ⟨eff, none, some u⟩ fmtOf) ∧
        (r ∈ apply_period_filter_fwf rows ⟨ffrom, some t, true⟩ ⟨eff, none, some u⟩ fmtOf ↔
          r ∈ rows)) ∧
      (getField r t ≠ strftimeBytes (fmtOf t) u →
        ((r ∈ apply_period_filter_fwf rows ⟨ffrom, some t, false⟩ ⟨eff, none, some u⟩ fmtOf ↔
            r ∈ rows ∧ bytesLtB (strftimeBytes (fmtOf t) u) (getField r t) = true) ∧
         (r ∈ apply_period_filter_fwf rows ⟨ffrom, some t, true⟩ ⟨eff, none, some u⟩ fmtOf ↔
            r ∈ rows ∧ bytesLeB (strftimeBytes (fmtOf t) u) (getField r t) = true) ∧
         (r ∈ apply_period_filter_fwf rows ⟨ffrom, some t, false⟩ ⟨eff, none, some u⟩ fmtOf ↔
            r ∈ apply_period_filter_fwf rows ⟨ffrom, some t, true⟩ ⟨eff, none, some u⟩ fmtOf)))) ∧
    (∀ (p : Period) (rows : List Row) (u : Datetime),
      filter_period_excel rows (.cPeriod p) none (some u) = Except.ok rows) := by
  constructor
  · intro ffrom t u eff fmtOf rows r
    have hredF : apply_period_filter_fwf rows ⟨ffrom, some t, false⟩ ⟨eff, none, some u⟩ fmtOf
        = rows.filter (fun x => bytesLtB (strftimeBytes (fmtOf t) u) (getField x t)) := by
      cases ffrom <;> simp [apply_period_filter_fwf, period_boundaries_to_bytes]
    have hredT : apply_period_filter_fwf rows ⟨ffrom, some t, true⟩ ⟨eff, none, some u⟩ fmtOf
        = rows.filter (fun x => bytesLeB (strftimeBytes (fmtOf t) u) (getField x t)) := by
      cases ffrom <;> simp [apply_period_filter_fwf, period_boundaries_to_bytes]
    constructor
    · intro heq
      constructor
      · rw [hredF]
        intro hmem
        have h2 := (List.mem_filter.mp hmem).2
        rw [heq, bytesLtB_irrefl] at h2
        exact Bool.noConfusion h2
      · rw [hredT]
        rw [List.mem_filter, heq, bytesLeB_refl]
        simp
    · intro hne
      have hlt := bytesLtB_eq_leB_of_ne (fun hc => hne hc.symm)
      refine ⟨?_, ?_, ?_⟩
      · rw [hredF]; exact List.mem_filter
      · rw [hredT]; exact List.mem_filter
      · rw [hredF, hredT]
        rw [List.mem_filter, List.mem_filter, hlt]
  · intro p rows u
    rfl

/-- C1 witness: one fixed-width row whose `VALID_TO` bytes read `"20200130"`,
strictly before the bound 2020-01-31; it is kept under both flag settings. -/
theorem c1_period_upper_bound_witness :
    [("VALID_TO", (strftimeBytes DateFmt.ymd ⟨2020, 1, 30, 0, 0, 0⟩))] ∈
        apply_period_filter_fwf
          [[("VALID_TO", (strftimeBytes DateFmt.ymd ⟨2020, 1, 30, 0, 0, 0⟩))]]
          ⟨some "VALID_FROM", some "VALID_TO", false⟩
          ⟨⟨2020, 1, 1, 0, 0, 0⟩, none, some ⟨2020, 1, 1, 0, 0, 0⟩⟩ (fun _ => DateFmt.ymd) ↔
      ([("VALID_TO", (strftimeBytes DateFmt.ymd ⟨2020, 1, 30, 0, 0, 0⟩))] ∈
          ([[("VALID_TO", (strftimeBytes DateFmt.ymd ⟨2020, 1, 30, 0, 0, 0⟩))]] : List FwfRow) ∧
        bytesLtB (strftimeBytes DateFmt.ymd ⟨2020, 1, 1, 0, 0, 0⟩)
          (getField [("VALID_TO", (strftimeBytes DateFmt.ymd ⟨2020, 1, 30, 0, 0, 0⟩))] "VALID_TO")
          = true) :=
  (((c1_period_upper_bound.1 (some "VALID_FROM") "VALID_TO" ⟨2020, 1, 1, 0, 0, 0⟩
      ⟨2020, 1, 1, 0, 0, 0⟩ (fun _ => DateFmt.ymd)
      [[("VALID_TO", (strftimeBytes DateFmt.ymd ⟨2020, 1, 30, 0, 0, 0⟩))]]
      [("VALID_TO", (strftimeBytes DateFmt.ymd ⟨2020, 1, 30, 0, 0, 0⟩))]).2) (by decide)).1

/-- C1 counterexample: the Excel reader keeps a row whose `VALID_TO` equals
`period_until` even though `inclusive` is false — the claim says such a row
is excluded. -/
theorem c1_period_upper_bound_counterexample :
    filter_period_excel [[("VALID_TO", Cell.dt ⟨2020, 1, 31, 0, 0, 0⟩)]]
        (.cPeriod ⟨some "VALID_FROM", some "VALID_TO", false⟩) none
        (some ⟨2020, 1, 31, 0, 0, 0⟩)
      = Except.ok [[("VALID_TO", Cell.dt ⟨2020, 1, 31, 0, 0, 0⟩)]] := rfl

/-- C2: with a configured `EFFECTIVE_DATE_FIELD`, the effective-date step
keeps exactly the rows whose value in that column is a date `<= effective_date`
— in particular every row with a missing value is removed — and with no
configured field the step leaves the data unchanged (shown for the Excel
filter and for the base loading pipeline). -/
theorem c2_effective_date_filter :
    (∀ (rows : List Row) (col : String) (eff : Datetime) (r : Row), col.isEmpty = false →
      (r ∈ filter_effective_date rows (some col) eff ↔
        r ∈ rows ∧ ∃ v, getCol r col = Cell.dt v ∧ dtLeB v eff = true)) ∧
    (∀ (rows : List Row) (col : String) (eff : Datetime) (r : Row), col.isEmpty = false →
      getCol r col = Cell.na → r ∉ filter_effective_date rows (some col) eff) ∧
    (∀ (rows : List Row) (eff : Datetime), filter_effective_date rows none eff = rows) ∧
    (∀ (rows : List FwfRow) (p : Period) (f : DateFilter) (fmtOf : String → DateFmt),
      base_load_fwf rows none (some p) f fmtOf = apply_period_filter_fwf rows p f fmtOf) ∧
    (∀ (rows : List FwfRow) (f : DateFilter) (fmtOf : String → DateFmt),
      base_load_fwf rows none none f fmtOf = rows) := by
  refine ⟨fun rows col eff r hcol => ?_, fun rows col eff r hcol hna => ?_,
    fun rows eff => rfl, fun rows p f fmtOf => rfl, fun rows f fmtOf => rfl⟩
  · cases hc : getCol r col <;>
      simp [filter_effective_date, hcol, List.mem_filter, hc, notNa, cellLeDt]
  · simp [filter_effective_date, hcol, List.mem_filter, hna, notNa]

/-- C2 witness: with column `"changed"`, a row dated 2018-06-06 survives an
effective date of 2018-07-01 (and the characterization holds for it). -/
theorem c2_effective_date_filter_witness :
    [("changed", Cell.dt ⟨2018, 6, 6, 0, 0, 0⟩)] ∈
        filter_effective_date [[("changed", Cell.dt ⟨2018, 6, 6, 0, 0, 0⟩)]]
          (some "changed") ⟨2018, 7, 1, 0, 0, 0⟩ ↔
      [("changed", Cell.dt ⟨2018, 6, 6, 0, 0, 0⟩)] ∈
          ([[("changed", Cell.dt ⟨2018, 6, 6, 0, 0, 0⟩)]] : List Row) ∧
        ∃ v, getCol [("changed", Cell.dt ⟨2018, 6, 6, 0, 0, 0⟩)] "changed" = Cell.dt v
          ∧ dtLeB v ⟨2018, 7, 1, 0, 0, 0⟩ = true :=
  c2_effective_date_filter.1 [[("changed", Cell.dt ⟨2018, 6, 6, 0, 0, 0⟩)]] "changed"
    ⟨2018, 7, 1, 0, 0, 0⟩ [("changed", Cell.dt ⟨2018, 6, 6, 0, 0, 0⟩)] (by decide)

/-- C3: both pipelines apply their steps in the fixed order — the Excel
`filter` is exactly the effective-date filter, then the period filter, then
`filter_tail`; and the base loading pipeline (fixed-width reader) is exactly
the effective-date filter then the period filter. -/
theorem c3_pipeline_order :
    (∀ (rows : List Row) (edf : Option String) (pcfg : ColsCfg) (idx : Option String)
        (pf pu : Option Datetime) (eff : Datetime),
      excel_filter rows edf pcfg idx pf pu eff =
        (filter_period_excel (filter_effective_date rows edf eff) pcfg pf pu).map
          (fun rs => filter_tail rs idx edf)) ∧
    (∀ (rows : List FwfRow) (field : String) (p : Period) (f : DateFilter)
        (fmtOf : String → DateFmt), field.isEmpty = false →
      base_load_fwf rows (some field) (some p) f fmtOf =
        apply_period_filter_fwf
          (apply_effective_date_filter_fwf rows field (fmtOf field) f.effective_date)
          p f fmtOf) := by
  constructor
  · intro rows edf pcfg idx pf pu eff
    cases h : filter_period_excel (filter_effective_date rows edf eff) pcfg pf pu with
    | ok rs =>
      simp [excel_filter, h, Except.map, bind, Except.bind, pure, Except.pure]
    | error e =>
      simp [excel_filter, h, Except.map, bind, Except.bind, pure, Except.pure]
  · intro rows field p f fmtOf hf
    simp [base_load_fwf, hf]

/-- C3 witness: the order equation at a concrete one-row fixed-width input. -/
theorem c3_pipeline_order_witness :
    base_load_fwf [[("D", [49])]] (some "D") (some ⟨none, none, false⟩)
        ⟨⟨2020, 1, 1, 0, 0, 0⟩, none, none⟩ (fun _ => DateFmt.ymd) =
      apply_period_filter_fwf
        (apply_effective_date_filter_fwf [[("D", [49])]] "D" DateFmt.ymd ⟨2020, 1, 1, 0, 0, 0⟩)
        ⟨none, none, false⟩ ⟨⟨2020, 1, 1, 0, 0, 0⟩, none, none⟩ (fun _ => DateFmt.ymd) :=
  c3_pipeline_order.2 [[("D", [49])]] "D" ⟨none, none, false⟩
    ⟨⟨2020, 1, 1, 0, 0, 0⟩, none, none⟩ (fun _ => DateFmt.ymd) (by decide)

theorem mem_insertSorted (le : Row → Row → Bool) (a x : Row) (l : List Row) :
    x ∈ insertSorted le a l ↔ x = a ∨ x ∈ l := by
  induction l with
  | nil => simp [insertSorted]
  | cons b bs ih =>
    by_cases h : le a b = true <;>
      simp [insertSorted, h, ih, List.mem_cons] <;> tauto

theorem mem_sortRows (le : Row → Row → Bool) (x : Row) (l : List Row) :
    x ∈ sortRows le l ↔ x ∈ l := by
  induction l with
  | nil => simp [sortRows]
  | cons a as ih => simp [sortRows, mem_insertSorted, ih, List.mem_cons]

theorem cellSortLe_total (a b : Cell) : cellSortLe a b = true ∨ cellSortLe b a = true := by
  cases a <;> cases b <;> simp [cellSortLe, dtLeB] <;> omega

theorem cellSortLe_trans {a b c : Cell} (h1 : cellSortLe a b = true)
    (h2 : cellSortLe b c = true) : cellSortLe a c = true := by
  cases a <;> cases b <;> cases c <;>
    simp_all [cellSortLe, dtLeB] <;> omega

theorem insertSorted_pairwise (le : Row → Row → Bool)
    (htot : ∀ a b, le a b = true ∨ le b a = true)
    (htr : ∀ {a b c}, le a b = true → le b c = true → le a c = true)
    (a : Row) (l : List Row) (hl : l.Pairwise (fun r1 r2 => le r1 r2 = true)) :
    (insertSorted le a l).Pairwise (fun r1 r2 => le r1 r2 = true) := by
  induction l with
  | nil => simp [insertSorted]
  | cons b bs ih =>
    rcases List.pairwise_cons.mp hl with ⟨hb, hbs⟩
    by_cases h : le a b = true
    · rw [insertSorted, if_pos h]
      refine List.pairwise_cons.mpr ⟨?_, hl⟩
      intro y hy
      rcases List.mem_cons.mp hy with rfl | hy
      · exact h
      · exact htr h (hb y hy)
    · rw [insertSorted, if_neg h]
      refine List.pairwise_cons.mpr ⟨?_, ih hbs⟩
      intro y hy
      rcases (mem_insertSorted le a y bs).mp hy with hEq | hy
      · rw [hEq]
        rcases htot a b with h1 | h1
        · exact absurd h1 h
        · exact h1
      · exact hb y hy

theorem sortRows_pairwise (le : Row → Row → Bool)
    (htot : ∀ a b, le a b = true ∨ le b a = true)
    (htr : ∀ {a b c}, le a b = true → le b c = true → le a c = true)
    (l : List Row) :
    (sortRows le l).Pairwise (fun r1 r2 => le r1 r2 = true) := by
  induction l with
  | nil => simp [sortRows]
  | cons a as ih => exact insertSorted_pairwise le htot htr a (sortRows le as) ih

theorem tailPerKey_sublist (k : String) (l : List Row) : (tailPerKey k l).Sublist l := by
  induction l with
  | nil => simp [tailPerKey]
  | cons r rest ih =>
    simp only [tailPerKey]
    split_ifs with h1 h2
    · exact ih.cons r
    · exact ih.cons r
    · exact ih.cons₂ r

theorem tailPerKey_pairwise (k : String) (l : List Row) :
    (tailPerKey k l).Pairwise (fun r1 r2 => getCol r1 k ≠ getCol r2 k) := by
  induction l with
  | nil => simp [tailPerKey]
  | cons r rest ih =>
    simp only [tailPerKey]
    split_ifs with h1 h2
    · exact ih
    · exact ih
    · refine List.pairwise_cons.mpr ⟨?_, ih⟩
      intro s hs
      have hs' : s ∈ rest := (tailPerKey_sublist k rest).subset hs
      intro hc
      exact h2 ⟨s, hs', hc.symm⟩

theorem getLast?_cons_of_ne (a : Row) (l : List Row) (h : l ≠ []) :
    (a :: l).getLast? = l.getLast? := by
  cases l with
  | nil => exact absurd rfl h
  | cons b bs => exact List.getLast?_cons_cons

theorem tailPerKey_filter_eq (k : String) (v : Cell) (hv : v ≠ Cell.na) (l : List Row) :
    (tailPerKey k l).filter (fun r => decide (getCol r k = v))
      = ((l.filter (fun r => decide (getCol r k = v))).getLast?).toList := by
  induction l with
  | nil => rfl
  | cons r rest ih =>
    simp only [tailPerKey]
    split_ifs with h1 h2
    · have hpr : getCol r k ≠ v := by
        rw [h1]
        exact fun hc => hv hc.symm
      have hstep : (r :: rest).filter (fun r => decide (getCol r k = v))
          = rest.filter (fun r => decide (getCol r k = v)) := by
        simp [List.filter_cons, hpr]
      rw [ih, hstep]
    · rw [ih]
      by_cases hpr : getCol r k = v
      · obtain ⟨s, hs, hsk⟩ := h2
        have hsv : (decide (getCol s k = v)) = true := by
          simp only [decide_eq_true_eq]
          rw [hsk, hpr]
        have hne : rest.filter (fun r => decide (getCol r k = v)) ≠ [] := by
          intro hnil
          have hmem : s ∈ rest.filter (fun r => decide (getCol r k = v)) :=
            List.mem_filter.mpr ⟨hs, hsv⟩
          rw [hnil] at hmem
          exact absurd hmem (List.not_mem_nil s)
        have hstep : (r :: rest).filter (fun r => decide (getCol r k = v))
            = r :: rest.filter (fun r => decide (getCol r k = v)) := by
          simp [List.filter_cons, hpr]
        rw [hstep, getLast?_cons_of_ne _ _ hne]
      · have hstep : (r :: rest).filter (fun r => decide (getCol r k = v))
            = rest.filter (fun r => decide (getCol r k = v)) := by
          simp [List.filter_cons, hpr]
        rw [hstep]
    · by_cases hpr : getCol r k = v
      · have hrest : rest.filter (fun r => decide (getCol r k = v)) = [] := by
          rw [List.filter_eq_nil_iff]
          intro s hs
          simp only [decide_eq_true_eq]
          intro hsv
          exact h2 ⟨s, hs, by rw [hsv, hpr]⟩
        have htail : (tailPerKey k rest).filter (fun r => decide (getCol r k = v)) = [] := by
          have hsub := (tailPerKey_sublist k rest).filter (fun r => decide (getCol r k = v))
          rw [hrest] at hsub
          exact List.sublist_nil.mp hsub
        have hstep : (r :: rest).filter (fun r => decide (getCol r k = v))
            = r :: rest.filter (fun r => decide (getCol r k = v)) := by
          simp [List.filter_cons, hpr]
        have hstep2 : (r :: tailPerKey k rest).filter (fun r => decide (getCol r k = v))
            = r :: (tailPerKey k rest).filter (fun r => decide (getCol r k = v)) := by
          simp [List.filter_cons, hpr]
        rw [hstep2, htail, hstep, hrest]
        rfl
      · have hstep : (r :: rest).filter (fun r => decide (getCol r k = v))
            = rest.filter (fun r => decide (getCol r k = v)) := by
          simp [List.filter_cons, hpr]
        have hstep2 : (r :: tailPerKey k rest).filter (fun r => decide (getCol r k = v))
            = (tailPerKey k rest).filter (fun r => decide (getCol r k = v)) := by
          simp [List.filter_cons, hpr]
        rw [hstep2, ih, hstep]

/-- C4: when an index column is configured, `filter_tail` returns rows of the
input with pairwise-distinct key values (at most one row per key); when
additionally the effective-date field is configured, the frame is first
sorted ascending by it, and per key value the result holds exactly the last
matching row of the sorted frame; when no index column is configured the
frame is returned unchanged. -/
theorem c4_latest_revision_selection :
    (∀ (rows : List Row) (k : String) (c : Option String), k.isEmpty = false →
      (filter_tail rows (some k) c).Pairwise (fun r1 r2 => getCol r1 k ≠ getCol r2 k)) ∧
    (∀ (rows : List Row) (k c : String) (v : Cell),
      k.isEmpty = false → c.isEmpty = false → v ≠ Cell.na →
      (filter_tail rows (some k) (some c)).filter (fun r => decide (getCol r k = v))
        = (((sortByCol rows c).filter (fun r => decide (getCol r k = v))).getLast?).toList) ∧
    (∀ (rows : List Row) (c : String), c.isEmpty = false →
      (sortByCol rows c).Pairwise
        (fun r1 r2 => cellSortLe (getCol r1 c) (getCol r2 c) = true)) ∧
    (∀ (rows : List Row) (k : String) (c : Option String) (r : Row), k.isEmpty = false →
      r ∈ filter_tail rows (some k) c → r ∈ rows) ∧
    (∀ (rows : List Row) (c : Option String), filter_tail rows none c = rows) := by
  refine ⟨fun rows k c hk => ?_, fun rows k c v hk hc hv => ?_, fun rows c _ => ?_,
    fun rows k c r hk hr => ?_, fun rows c => rfl⟩
  · cases c with
    | none => simp only [filter_tail, hk]; exact tailPerKey_pairwise k rows
    | some cc =>
      by_cases hcc : cc.isEmpty
      · simp only [filter_tail, hk, hcc]
        exact tailPerKey_pairwise k rows
      · simp only [filter_tail, hk, hcc]
        exact tailPerKey_pairwise k _
  · simp only [filter_tail, hk, hc]
    simp only [Bool.false_eq_true, if_false]
    exact tailPerKey_filter_eq k v hv (sortByCol rows c)
  · simp only [sortByCol]
    exact sortRows_pairwise (fun r1 r2 => cellSortLe (getCol r1 c) (getCol r2 c))
      (fun r1 r2 => cellSortLe_total (getCol r1 c) (getCol r2 c))
      (fun h1 h2 => cellSortLe_trans h1 h2) rows
  · cases c with
    | none =>
      simp only [filter_tail, hk] at hr
      exact (tailPerKey_sublist k rows).subset ((by simpa using hr : r ∈ tailPerKey k rows))
    | some cc =>
      by_cases hcc : cc.isEmpty
      · simp only [filter_tail, hk, hcc] at hr
        exact (tailPerKey_sublist k rows).subset (by simpa using hr)
      · simp only [filter_tail, hk, hcc] at hr
        have hr2 : r ∈ sortByCol rows cc :=
          (tailPerKey_sublist k (sortByCol rows cc)).subset (by simpa using hr)
        exact (mem_sortRows _ r rows).mp hr2

/-- C4 witness: two rows with the same key `"name-1"`; the one dated later
survives, and the per-key characterization holds at that key value. -/
theorem c4_latest_revision_witness :
    (filter_tail
        [[("Name", Cell.str "name-1"), ("changed", Cell.dt ⟨2018, 6, 6, 0, 0, 0⟩)],
         [("Name", Cell.str "name-1"), ("changed", Cell.dt ⟨2018, 7, 1, 0, 0, 0⟩)]]
        (some "Name") (some "changed")).filter
        (fun r => decide (getCol r "Name" = Cell.str "name-1"))
      = (((sortByCol
            [[("Name", Cell.str "name-1"), ("changed", Cell.dt ⟨2018, 6, 6, 0, 0, 0⟩)],
             [("Name", Cell.str "name-1"), ("changed", Cell.dt ⟨2018, 7, 1, 0, 0, 0⟩)]]
            "changed").filter
            (fun r => decide (getCol r "Name" = Cell.str "name-1"))).getLast?).toList :=
  c4_latest_revision_selection.2.1
    [[("Name", Cell.str "name-1"), ("changed", Cell.dt ⟨2018, 6, 6, 0, 0, 0⟩)],
     [("Name", Cell.str "name-1"), ("changed", Cell.dt ⟨2018, 7, 1, 0, 0, 0⟩)]]
    "Name" "changed" (Cell.str "name-1") (by decide) (by decide) (by decide)

theorem lookupA_cons {α : Type} (q : String × α) (l : List (String × α)) (m : String) :
    lookupA (q :: l) m = if q.1 == m then some q.2 else lookupA l m := rfl

theorem setA_cons {α : Type} (q : String × α) (l : List (String × α)) (n : String) (v : α) :
    setA (q :: l) n v = (if q.1 == n then (q.1, v) else q) :: setA l n v := rfl

theorem lookupA_setA_self {α : Type} (l : List (String × α)) (n : String) (v x : α)
    (h : lookupA l n = some x) : lookupA (setA l n v) n = some v := by
  induction l with
  | nil => simp [lookupA] at h
  | cons p rest ih =>
    rw [setA_cons]
    by_cases hn : (p.1 == n) = true
    · rw [if_pos hn, lookupA_cons]
      simp [hn]
    · rw [if_neg hn, lookupA_cons, if_neg hn]
      rw [lookupA_cons, if_neg hn] at h
      exact ih h

theorem lookupA_setA_ne {α : Type} (l : List (String × α)) (n m : String) (v : α)
    (hmn : m ≠ n) : lookupA (setA l n v) m = lookupA l m := by
  induction l with
  | nil => rfl
  | cons p rest ih =>
    by_cases hn : (p.1 == n) = true
    · rw [setA_cons, if_pos hn, lookupA_cons, lookupA_cons]
      have hp : p.1 = n := by simpa using hn
      have hm : (p.1 == m) = false := by
        rw [hp]
        exact beq_eq_false_iff_ne.mpr (fun hc => hmn hc.symm)
      simp [hm, ih]
    · rw [setA_cons, if_neg hn, lookupA_cons, lookupA_cons]
      by_cases hm : (p.1 == m) = true
      · simp [hm]
      · simp [hm, ih]

theorem lookupA_self_of_nodup {α : Type} (l : List (String × α))
    (hnd : (l.map Prod.fst).Nodup) : ∀ a ∈ l, lookupA l a.1 = some a.2 := by
  induction l with
  | nil => intro a ha; exact absurd ha (List.not_mem_nil a)
  | cons p rest ih =>
    intro a ha
    rcases List.mem_cons.mp ha with heq | harest
    · subst heq
      simp [lookupA]
    · have hnotin : p.1 ∉ rest.map Prod.fst := (List.nodup_cons.mp (by simpa using hnd)).1
      have hne : (p.1 == a.1) = false := by
        rw [beq_eq_false_iff_ne]
        intro hc
        apply hnotin
        rw [hc]
        exact List.mem_map.mpr ⟨a, harest, rfl⟩
      rw [lookupA_cons]
      simp only [hne, Bool.false_eq_true, if_false]
      exact ih (List.nodup_cons.mp (by simpa using hnd)).2 a harest

theorem spec_setattr_ok_spec {V : Type} [DecidableEq V] (s : PySpec V) (name : String)
    (v cur : V) (f : V → Except String V) (w : V)
    (hup : pyIsUpper name = true) (hcur : lookupA s.attrs name = some cur)
    (hf : lookupA s.validators name = some f) (hw : f v = Except.ok w) :
    ∃ s2, spec_setattr s name v = Except.ok s2 ∧ s2.validators = s.validators ∧
      lookupA s2.attrs name = some w ∧
      ∀ m, m ≠ name → lookupA s2.attrs m = lookupA s.attrs m := by
  by_cases hvc : w = cur
  · refine ⟨s, ?_, rfl, ?_, fun m _ => rfl⟩
    · simp [spec_setattr, hup, hcur, hf, hw, hvc]
    · rw [hcur, hvc]
  · by_cases hnm : name = "FIELDSPECS"
    · subst hnm
      refine ⟨⟨setA s.attrs "FIELDSPECS" w, s.validators, s.fieldsInit + 1⟩, ?_, rfl, ?_, ?_⟩
      · simp [spec_setattr, hup, hcur, hf, hw, hvc]
      · exact lookupA_setA_self _ _ _ _ hcur
      · intro m hm
        exact lookupA_setA_ne _ _ _ _ hm
    · refine ⟨⟨setA s.attrs name w, s.validators, s.fieldsInit⟩, ?_, rfl, ?_, ?_⟩
      · simp [spec_setattr, hup, hcur, hf, hw, hvc, hnm]
      · exact lookupA_setA_self _ _ _ _ hcur
      · intro m hm
        exact lookupA_setA_ne _ _ _ _ hm

theorem spec_setattr_validators_eq {V : Type} [DecidableEq V] {s s2 : PySpec V}
    {name : String} {v : V} (h : spec_setattr s name v = Except.ok s2) :
    s2.validators = s.validators := by
  unfold spec_setattr at h
  repeat' split at h
  all_goals first
    | exact Except.noConfusion h
    | (cases h; rfl)

/-- C9: assigning an upper-case configuration attribute a value whose
normalized (validated) form equals the current value returns immediately —
the object (attributes and `fieldsInit` count alike) is unchanged, so
repeating the assignment any number of times is also a no-op; only when the
normalized value differs is the attribute rewritten, with `init()` re-run
exactly for `FIELDSPECS`. -/
theorem c9_setattr_idempotent :
    (∀ (V : Type) [DecidableEq V] (s : PySpec V) (name : String) (v cur : V)
        (f : V → Except String V),
      pyIsUpper name = true → lookupA s.attrs name = some cur →
      lookupA s.validators name = some f → f v = Except.ok cur →
      spec_setattr s name v = Except.ok s) ∧
    (∀ (V : Type) [DecidableEq V] (s : PySpec V) (name : String) (v cur : V)
        (f : V → Except String V),
      pyIsUpper name = true → lookupA s.attrs name = some cur →
      lookupA s.validators name = some f → f v = Except.ok cur →
      (spec_setattr s name v).bind (fun s2 => spec_setattr s2 name v) = Except.ok s) ∧
    (∀ (V : Type) [DecidableEq V] (s : PySpec V) (name : String) (v cur w : V)
        (f : V → Except String V),
      pyIsUpper name = true → lookupA s.attrs name = some cur →
      lookupA s.validators name = some f → f v = Except.ok w → w ≠ cur →
      name ≠ "FIELDSPECS" →
      spec_setattr s name v = Except.ok ⟨setA s.attrs name w, s.validators, s.fieldsInit⟩) ∧
    (∀ (V : Type) [DecidableEq V] (s : PySpec V) (v cur w : V)
        (f : V → Except String V),
      lookupA s.attrs "FIELDSPECS" = some cur →
      lookupA s.validators "FIELDSPECS" = some f → f v = Except.ok w → w ≠ cur →
      spec_setattr s "FIELDSPECS" v
        = Except.ok ⟨setA s.attrs "FIELDSPECS" w, s.validators, s.fieldsInit + 1⟩) := by
  refine ⟨fun V _ s name v cur f hup hcur hf hw => ?_,
    fun V _ s name v cur f hup hcur hf hw => ?_,
    fun V _ s name v cur w f hup hcur hf hw hne hnm => ?_,
    fun V _ s v cur w f hcur hf hw hne => ?_⟩
  · simp [spec_setattr, hup, hcur, hf, hw]
  · have h1 : spec_setattr s name v = Except.ok s := by
      simp [spec_setattr, hup, hcur, hf, hw]
    rw [h1]
    simp only [Except.bind]
    exact h1
  · simp [spec_setattr, hup, hcur, hf, hw, hne, hnm]
  · have hup : pyIsUpper "FIELDSPECS" = true := by decide
    simp [spec_setattr, hup, hcur, hf, hw, hne]

/-- C9 witness: assigning `ENABLED` the value `1` it already holds, with the
identity validator, leaves the specification untouched. -/
theorem c9_setattr_idempotent_witness :
    spec_setattr wSpecIdent "ENABLED" 1 = Except.ok wSpecIdent :=
  c9_setattr_idempotent.1 Nat wSpecIdent "ENABLED" 1 1 (fun v => Except.ok v)
    (by decide) rfl rfl rfl

theorem spec_validate_go_error_of_missing {V : Type} [DecidableEq V] :
    ∀ (l : List (String × V)) (st : PySpec V),
      (∃ a ∈ l, pyIsUpper a.1 = true ∧ lookupA st.validators a.1 = none) →
      ∃ e, spec_validate_go st l = Except.error e := by
  intro l
  induction l with
  | nil =>
    intro st h
    rcases h with ⟨a, ha, -⟩
    exact absurd ha (List.not_mem_nil a)
  | cons p rest ih =>
    obtain ⟨n, vv⟩ := p
    intro st h
    by_cases hup : pyIsUpper n = true
    · cases hf : lookupA st.validators n with
      | none =>
        exact ⟨"Found a config with name " ++ n ++ ". Corresponding function validate_"
          ++ n ++ " is missing", by simp [spec_validate_go, hup, hf]⟩
      | some f =>
        cases hcur : lookupA st.attrs n with
        | none => exact ⟨"AttributeError", by simp [spec_validate_go, hup, hf, hcur]⟩
        | some cur =>
          cases hset : spec_setattr st n cur with
          | error e => exact ⟨e, by simp [spec_validate_go, hup, hf, hcur, hset]⟩
          | ok st2 =>
            rcases h with ⟨a, ha, hau, hal⟩
            rcases List.mem_cons.mp ha with heq | harest
            · subst heq
              exact Option.noConfusion (hf.symm.trans hal)
            · have hv2 : st2.validators = st.validators := spec_setattr_validators_eq hset
              obtain ⟨e, he⟩ := ih st2 ⟨a, harest, hau, by rw [hv2]; exact hal⟩
              exact ⟨e, by simp [spec_validate_go, hup, hf, hcur, hset, he]⟩
    · rcases h with ⟨a, ha, hau, hal⟩
      rcases List.mem_cons.mp ha with heq | harest
      · subst heq
        exact absurd hau hup
      · obtain ⟨e, he⟩ := ih st ⟨a, harest, hau, hal⟩
        exact ⟨e, by simp [spec_validate_go, hup, he]⟩

theorem spec_validate_go_ok {V : Type} [DecidableEq V]
    (VS : List (String × (V → Except String V))) :
    ∀ (l : List (String × V)) (st : PySpec V),
      st.validators = VS →
      (∀ a ∈ l, lookupA st.attrs a.1 = some a.2) →
      (l.map Prod.fst).Nodup →
      (∀ a ∈ l, pyIsUpper a.1 = true →
        ∃ f, lookupA VS a.1 = some f ∧ ∃ w, f a.2 = Except.ok w) →
      ∃ st2, spec_validate_go st l = Except.ok st2 ∧ st2.validators = VS ∧
        (∀ n, n ∉ l.map Prod.fst → lookupA st2.attrs n = lookupA st.attrs n) ∧
        (∀ a ∈ l, pyIsUpper a.1 = true → ∀ f w, lookupA VS a.1 = some f →
          f a.2 = Except.ok w → lookupA st2.attrs a.1 = some w) := by
  intro l
  induction l with
  | nil =>
    intro st hvs _ _ _
    exact ⟨st, rfl, hvs, fun n _ => rfl, fun a ha => absurd ha (List.not_mem_nil a)⟩
  | cons p rest ih =>
    obtain ⟨n, vv⟩ := p
    intro st hvs hcur hnd hval
    have hnotin : n ∉ rest.map Prod.fst := (List.nodup_cons.mp (by simpa using hnd)).1
    have hnd2 : (rest.map Prod.fst).Nodup := (List.nodup_cons.mp (by simpa using hnd)).2
    have hval2 : ∀ a ∈ rest, pyIsUpper a.1 = true →
        ∃ f, lookupA VS a.1 = some f ∧ ∃ w, f a.2 = Except.ok w :=
      fun a ha hu => hval a (List.mem_cons_of_mem _ ha) hu
    by_cases hup : pyIsUpper n = true
    · obtain ⟨f, hfVS, w, hw⟩ := hval (n, vv) (List.mem_cons_self _ _) hup
      have hfst : lookupA st.validators n = some f := by rw [hvs]; exact hfVS
      have hcur0 : lookupA st.attrs n = some vv := hcur (n, vv) (List.mem_cons_self _ _)
      obtain ⟨stm, hset, hstmv, hstml, hstmf⟩ :=
        spec_setattr_ok_spec st n vv vv f w hup hcur0 hfst hw
      have hvs2 : stm.validators = VS := hstmv.trans hvs
      have hcur2 : ∀ a ∈ rest, lookupA stm.attrs a.1 = some a.2 := by
        intro a ha
        have hane : a.1 ≠ n := by
          intro hc
          exact hnotin (hc ▸ List.mem_map.mpr ⟨a, ha, rfl⟩)
        rw [hstmf a.1 hane]
        exact hcur a (List.mem_cons_of_mem _ ha)
      obtain ⟨st2, hgo, hst2v, hframe, hresult⟩ := ih stm hvs2 hcur2 hnd2 hval2
      refine ⟨st2, ?_, hst2v, ?_, ?_⟩
      · simp [spec_validate_go, hup, hfst, hcur0, hset, hgo]
      · intro m hm
        have hm1 : m ≠ n := by
          intro hc
          exact hm (by simp [hc])
        have hm2 : m ∉ rest.map Prod.fst := by
          intro hc
          exact hm (by simp [hc])
        rw [hframe m hm2, hstmf m hm1]
      · intro a ha hu f2 w2 hf2 hw2
        rcases List.mem_cons.mp ha with heq | harest
        · subst heq
          have hf2n : lookupA VS n = some f2 := hf2
          have hw2n : f2 vv = Except.ok w2 := hw2
          have hff : f2 = f := Option.some.inj (hf2n.symm.trans hfVS)
          have hww : w = w2 := by
            rw [hff] at hw2n
            exact Except.ok.inj (hw.symm.trans hw2n)
          show lookupA st2.attrs n = some w2
          rw [hframe n hnotin, hstml, hww]
        · exact hresult a harest hu f2 w2 hf2 hw2
    · have hcur2 : ∀ a ∈ rest, lookupA st.attrs a.1 = some a.2 :=
        fun a ha => hcur a (List.mem_cons_of_mem _ ha)
      obtain ⟨st2, hgo, hst2v, hframe, hresult⟩ := ih st hvs hcur2 hnd2 hval2
      refine ⟨st2, ?_, hst2v, ?_, ?_⟩
      · simp [spec_validate_go, hup, hgo]
      · intro m hm
        have hm2 : m ∉ rest.map Prod.fst := by
          intro hc
          exact hm (by simp [hc])
        exact hframe m hm2
      · intro a ha hu f2 w2 hf2 hw2
        rcases List.mem_cons.mp ha with heq | harest
        · subst heq
          exact absurd hu hup
        · exact hresult a harest hu f2 w2 hf2 hw2

/-- C8: `validate()` fails whenever some `validate_X` (upper-case `X`) has no
matching attribute `X`, and whenever some upper-case attribute has no matching
validator; when both directions are complete (and every validator accepts its
current value) validation succeeds and every configuration attribute ends up
holding exactly the value its validator returned for the original value. -/
theorem c8_validator_completeness :
    (∀ (V : Type) [DecidableEq V] (s : PySpec V) (p : String × (V → Except String V)),
      p ∈ s.validators → pyIsUpper p.1 = true → lookupA s.attrs p.1 = none →
      ∃ e, spec_validate s = Except.error e) ∧
    (∀ (V : Type) [DecidableEq V] (s : PySpec V) (a : String × V),
      a ∈ s.attrs → pyIsUpper a.1 = true → lookupA s.validators a.1 = none →
      ∃ e, spec_validate s = Except.error e) ∧
    (∀ (V : Type) [DecidableEq V] (s : PySpec V),
      (s.attrs.map Prod.fst).Nodup →
      (∀ p ∈ s.validators, pyIsUpper p.1 = true → (lookupA s.attrs p.1).isSome = true) →
      (∀ a ∈ s.attrs, pyIsUpper a.1 = true →
        ∃ f, lookupA s.validators a.1 = some f ∧ ∃ w, f a.2 = Except.ok w) →
      ∃ s2, spec_validate s = Except.ok s2 ∧
        ∀ a ∈ s.attrs, pyIsUpper a.1 = true → ∀ f w,
          lookupA s.validators a.1 = some f → f a.2 = Except.ok w →
          lookupA s2.attrs a.1 = some w) := by
  refine ⟨fun V _ s p hp hup hnone => ?_, fun V _ s a ha hup hnone => ?_,
    fun V _ s hnd hva hav => ?_⟩
  · have hsome : (s.validators.find?
        (fun q => pyIsUpper q.1 && (lookupA s.attrs q.1).isNone)).isSome :=
      List.find?_isSome.mpr ⟨p, hp, by simp [hup, hnone]⟩
    cases hf : s.validators.find? (fun q => pyIsUpper q.1 && (lookupA s.attrs q.1).isNone) with
    | none => rw [hf] at hsome; exact Bool.noConfusion hsome
    | some q =>
      exact ⟨"Missing the " ++ q.1 ++ " variable matching validate_" ++ q.1,
        by simp [spec_validate, hf]⟩
  · cases hf : s.validators.find? (fun q => pyIsUpper q.1 && (lookupA s.attrs q.1).isNone) with
    | some q =>
      exact ⟨"Missing the " ++ q.1 ++ " variable matching validate_" ++ q.1,
        by simp [spec_validate, hf]⟩
    | none =>
      obtain ⟨e, he⟩ := spec_validate_go_error_of_missing s.attrs s ⟨a, ha, hup, hnone⟩
      exact ⟨e, by simp [spec_validate, hf, he]⟩
  · have hf : s.validators.find?
        (fun q => pyIsUpper q.1 && (lookupA s.attrs q.1).isNone) = none := by
      rw [List.find?_eq_none]
      intro x hx hc
      simp only [Bool.and_eq_true] at hc
      have hs := hva x hx hc.1
      rw [Option.isNone_iff_eq_none.mp hc.2] at hs
      exact Bool.noConfusion hs
    obtain ⟨st2, hgo, -, -, hres⟩ :=
      spec_validate_go_ok s.validators s.attrs s rfl
        (lookupA_self_of_nodup s.attrs hnd) hnd hav
    exact ⟨st2, by simp [spec_validate, hf, hgo], hres⟩

/-- C8 witness: a specification whose single attribute `ENABLED` (value 5)
has a validator normalizing every value to 7 validates successfully, and
`ENABLED` ends up holding 7. -/
theorem c8_validator_completeness_witness :
    ∃ s2, spec_validate wSpecNorm = Except.ok s2 ∧
      ∀ a ∈ wSpecNorm.attrs, pyIsUpper a.1 = true → ∀ f w,
        lookupA wSpecNorm.validators a.1 = some f → f a.2 = Except.ok w →
        lookupA s2.attrs a.1 = some w :=
  c8_validator_completeness.2.2 Nat wSpecNorm (by decide)
    (by
      intro p hp hu
      have hp2 : p = ("ENABLED", fun _ => Except.ok 7) := by simpa [wSpecNorm] using hp
      rw [hp2]
      rfl)
    (by
      intro a ha hu
      have ha2 : a = ("ENABLED", 5) := by simpa [wSpecNorm] using ha
      rw [ha2]
      exact ⟨fun _ => Except.ok 7, rfl, 7, rfl⟩)
